import Mathlib

/-!
# Food-vision backend: shallow embedding and verification

A shallow embedding of the pipeline-orchestration and job-lifecycle core of
the food-vision web application (`backend/database.py`, `backend/pipeline.py`,
`backend/main.py`), together with proofs about the claims of its
specification.

Modelling conventions:
* Python strings are Lean `String`s; character-level operations work on
  `String.data : List Char`.  `str.lower()` is modelled on the ASCII range.
* Python floats are modelled as rationals (`ℚ`).
* External collaborators (Vision Labeler, Segmenter, Nutrition Source) are
  oracles passed in as plain functions, matching the spec's collaborator
  interfaces; the persistent cache table is an explicit association list
  threaded through the functions that read or write it.
* Fallible code is modelled with `Except`/`Option`.
-/

namespace FoodVision

/-- The ASCII whitespace characters stripped by Python `str.strip()`. -/
def pyIsSpace (c : Char) : Bool :=
  c = ' ' || c = '\t' || c = '\n' || c = '\r' || c = '\x0b' || c = '\x0c'

/-- Python `str.strip()`: drop leading and trailing whitespace. -/
def pyStrip (l : List Char) : List Char :=
  ((l.dropWhile pyIsSpace).reverse.dropWhile pyIsSpace).reverse

/-- Python `str.strip("_")`: drop leading and trailing underscores. -/
def stripUnderscore (l : List Char) : List Char :=
  ((l.dropWhile (· = '_')).reverse.dropWhile (· = '_')).reverse

/-- Python `str.lower()` on the ASCII range. -/
def pyToLower (c : Char) : Char :=
  if 'A' ≤ c ∧ c ≤ 'Z' then Char.ofNat (c.toNat + 32) else c

/-- `re.sub(r"_+", "_", s)`: collapse every run of underscores to one. -/
def collapseUnderscores : List Char → List Char
  | [] => []
  | [c] => [c]
  | a :: b :: rest =>
    if a = '_' ∧ b = '_' then collapseUnderscores (b :: rest)
    else a :: collapseUnderscores (b :: rest)

/-- The character pipeline of `normalize_food_name` applied to a non-empty
input: `text.strip().lower().replace(" ", "_").replace("-", "_")`, then
collapse `_+` runs and strip outer underscores. -/
def normalizeChars (l : List Char) : List Char :=
  stripUnderscore (collapseUnderscores
    ((((pyStrip l).map pyToLower).map
        (fun c => if c = ' ' then '_' else c)).map
      (fun c => if c = '-' then '_' else c)))

/-- `database.normalize_food_name`.  An empty (falsy) input returns `""`
immediately; otherwise the normalised character list is returned, with
`"unknown"` substituted when it comes out empty (`return s or "unknown"`). -/
def normalize_food_name (text : String) : String :=
  if text.data = [] then ""
  else
    let s := normalizeChars text.data
    if s = [] then "unknown" else String.mk s

example : normalize_food_name "Grilled  Chicken-Breast" = "grilled_chicken_breast" := by decide
example : normalize_food_name "   " = "unknown" := by decide
example : normalize_food_name "" = "" := by decide
example : normalize_food_name "a\t_" = "a\t" := by decide
example : normalize_food_name "a\t" = "a" := by decide
example : normalize_food_name "Banana" = "banana" := by decide

/-! ## Nutrition cache (`database.py` cache table, `pipeline.py` lookup) -/

/-- The macro quadruple. -/
structure Macros where
  calories : ℚ
  protein : ℚ
  carbs : ℚ
  fat : ℚ
deriving DecidableEq, Repr

/-- A row of the `food_cache` table (keyed elsewhere by its `name`). -/
structure CacheEntry where
  corrected_label : String
  calories : ℚ
  protein : ℚ
  carbs : ℚ
  fat : ℚ
  base_unit : String
deriving DecidableEq, Repr

/-- The `food_cache` table: `name` is the primary key, so at most one row per
name; modelled as an association list looked up by first match. -/
abbrev Cache : Type := List (String × CacheEntry)

/-- `database.get_food_from_cache`: the row for `normalized_name`, if any. -/
def get_food_from_cache (c : Cache) (normalized_name : String) : Option CacheEntry :=
  ((c : List (String × CacheEntry)).find? (fun p => p.1 = normalized_name)).map Prod.snd

/-- `database.insert_food_cache`: `INSERT ... ON CONFLICT(name) DO UPDATE` —
update the existing row for `name` if present, else append a new row. -/
def insert_food_cache (c : Cache) (name : String) (e : CacheEntry) : Cache :=
  if (c : List (String × CacheEntry)).any (fun p => p.1 = name) then
    (c : List (String × CacheEntry)).map (fun p => if p.1 = name then (name, e) else p)
  else (c : List (String × CacheEntry)) ++ [(name, e)]

/-- One reply of the Nutrition Source (`_query_usda`), abstracted as an
oracle value: corrected description, per-100g macros, raw diagnostic. -/
structure UsdaReply where
  corrected : String
  calories : ℚ
  protein : ℚ
  carbs : ℚ
  fat : ℚ
  raw : String
deriving DecidableEq, Repr

/-- All four macros of a reply are zero. -/
def allZero (r : UsdaReply) : Bool :=
  r.calories = 0 && r.protein = 0 && r.carbs = 0 && r.fat = 0

/-- Python `str.split()` helper: accumulate a word in `acc` (reversed). -/
def splitWsAux : List Char → List Char → List (List Char)
  | [], acc => if acc = [] then [] else [acc.reverse]
  | c :: rest, acc =>
    if pyIsSpace c then
      if acc = [] then splitWsAux rest []
      else acc.reverse :: splitWsAux rest []
    else splitWsAux rest (c :: acc)

/-- Python `str.split()` with no argument: split on whitespace runs,
dropping empty words. -/
def pySplitWs (l : List Char) : List (List Char) := splitWsAux l []

/-- `label.replace("_", " ").strip() or label` from `_fetch_macros_from_usda`. -/
def humanize (label : String) : String :=
  let h := pyStrip (label.data.map (fun c => if c = '_' then ' ' else c))
  if h = [] then label else String.mk h

/-- The value computed by `_fetch_macros_from_usda`. -/
structure FetchResult where
  corrected : String
  calories : ℚ
  protein : ℚ
  carbs : ℚ
  fat : ℚ
  raw_response : String
  macros_incomplete : Bool
deriving DecidableEq, Repr

/-- `pipeline._fetch_macros_from_usda` with the Nutrition Source abstracted
as the oracle `usda`.  Also returns the list of queries issued, in order, so
that the number of external calls and their arguments are observable.  First
query the humanized label; if that is all-zero and the humanized label has
several words, retry with the last word alone and keep the retry only if it
is not all-zero; `macros_incomplete` records whether the kept reply is still
all-zero. -/
def fetch_macros_from_usda (usda : String → UsdaReply) (label : String) :
    FetchResult × List String :=
  let human_label := humanize label
  let first := usda human_label
  if allZero first then
    let parts := pySplitWs human_label.data
    if parts.length > 1 then
      let simple : String := String.mk (parts.getLastD [])
      let second := usda simple
      if allZero second then
        ({ corrected := first.corrected, calories := first.calories,
           protein := first.protein, carbs := first.carbs, fat := first.fat,
           raw_response := first.raw, macros_incomplete := true },
         [human_label, simple])
      else
        ({ corrected := second.corrected, calories := second.calories,
           protein := second.protein, carbs := second.carbs, fat := second.fat,
           raw_response := second.raw, macros_incomplete := false },
         [human_label, simple])
    else
      ({ corrected := first.corrected, calories := first.calories,
         protein := first.protein, carbs := first.carbs, fat := first.fat,
         raw_response := first.raw, macros_incomplete := true },
       [human_label])
  else
    ({ corrected := first.corrected, calories := first.calories,
       protein := first.protein, carbs := first.carbs, fat := first.fat,
       raw_response := first.raw, macros_incomplete := false },
     [human_label])

/-- A FoodItem-shaped lookup result of `get_macros_for_food`. -/
structure LookupResult where
  name : String
  quantity : ℚ
  macros : Macros
  raw_response : String
  macros_incomplete : Bool
deriving DecidableEq, Repr

/-- `key = normalize_food_name(label); if not key: key = "unknown"`. -/
def lookupKey (label : String) : String :=
  let key := normalize_food_name label
  if key = "" then "unknown" else key

/-- `pipeline.get_macros_for_food`: cache hit returns the cached per-100g
macros scaled by `quantity` with no Nutrition Source call; a miss fetches,
upserts the per-100g values under the canonical key, and returns them
scaled.  Returns the result, the updated cache table, and the list of
Nutrition Source queries issued (empty on the hit path). -/
def get_macros_for_food (cache : Cache) (usda : String → UsdaReply)
    (label : String) (quantity : ℚ) :
    LookupResult × Cache × List String :=
  let key := lookupKey label
  match get_food_from_cache cache key with
  | some c =>
    ({ name := key, quantity := quantity,
       macros := { calories := c.calories * quantity, protein := c.protein * quantity,
                   carbs := c.carbs * quantity, fat := c.fat * quantity },
       raw_response := "", macros_incomplete := false }, cache, [])
  | none =>
    let fq := fetch_macros_from_usda usda label
    let f := fq.1
    let cache2 := insert_food_cache cache key
      { corrected_label := f.corrected, calories := f.calories, protein := f.protein,
        carbs := f.carbs, fat := f.fat, base_unit := "100g" }
    ({ name := key, quantity := quantity,
       macros := { calories := f.calories * quantity, protein := f.protein * quantity,
                   carbs := f.carbs * quantity, fat := f.fat * quantity },
       raw_response := f.raw_response, macros_incomplete := f.macros_incomplete },
     cache2, fq.2)

/-! ## Pipeline orchestration (`pipeline.py`) -/

/-- Python `str.upper()` on the ASCII range. -/
def pyToUpper (c : Char) : Char :=
  if 'a' ≤ c ∧ c ≤ 'z' then Char.ofNat (c.toNat - 32) else c

/-- `beginsWith pat l`: `pat` is an initial run of `l`. -/
def beginsWith : List Char → List Char → Bool
  | [], _ => true
  | _ :: _, [] => false
  | p :: ps, c :: cs => p = c && beginsWith ps cs

/-- Python `pat in s` for strings: contiguous-substring containment. -/
def containsSeq (pat : List Char) : List Char → Bool
  | [] => beginsWith pat []
  | c :: rest => beginsWith pat (c :: rest) || containsSeq pat rest

/-- `"NON_FOOD" in label.upper()`. -/
def containsNonFood (label : String) : Bool :=
  containsSeq "NON_FOOD".data (label.data.map pyToUpper)

/-- Python `str.split(",")` helper (keeps empty pieces, like Python). -/
def splitCommaAux : List Char → List Char → List (List Char)
  | [], acc => [acc.reverse]
  | c :: rest, acc =>
    if c = ',' then acc.reverse :: splitCommaAux rest []
    else splitCommaAux rest (c :: acc)

/-- `[p.strip() for p in label.split(",") if p.strip()]`: comma-split,
trim each piece, drop the empty ones. -/
def rawLabels (label : String) : List String :=
  ((splitCommaAux label.data []).map pyStrip).filterMap
    (fun l => if l = [] then none else some (String.mk l))

/-- `NON_FOOD_BLOCKLIST` from `pipeline.py`. -/
def NON_FOOD_BLOCKLIST : List String :=
  ["plate", "plates", "non_food", "table", "cutlery", "fork", "knife", "spoon",
   "napkin", "container", "bowl", "cup", "glass", "unknown"]

/-- `pipeline._titanium_trapdoor`: a label is blocked when its canonical key
is empty or belongs to the non-food blocklist. -/
def titanium_trapdoor (label : String) : Bool :=
  let key := normalize_food_name label
  if key = "" then true
  else NON_FOOD_BLOCKLIST.contains key

/-- An item dict `{name, quantity, macros}` as assembled by the pipeline. -/
structure FoodItem where
  name : String
  quantity : ℚ
  macros : Macros
deriving DecidableEq, Repr

/-- Totals: componentwise sums over the item list. -/
def sumMacros (items : List FoodItem) : Macros :=
  { calories := (items.map (fun i => i.macros.calories)).sum,
    protein := (items.map (fun i => i.macros.protein)).sum,
    carbs := (items.map (fun i => i.macros.carbs)).sum,
    fat := (items.map (fun i => i.macros.fat)).sum }

/-- The dict returned by `run_pipeline` / `_run_pipeline_deep`. -/
structure PipelineResult where
  original_label : String
  items : List FoodItem
  totals : Macros
  regions : List String
  annotated_image_path : Option String
  raw_response : String
deriving DecidableEq, Repr

/-- One invocation of the progress callback `report(stage, pct)`. -/
structure ProgressCall where
  stage : String
  pct : Int
deriving DecidableEq, Repr

/-- Progress percentage `50 + int((i / max(1, n)) * 45)` of the fast loop
(Python computes the division in floating point; modelled exactly — no claim
depends on the interpolated values). -/
def fastLookupPct (i n : Nat) : Int :=
  50 + ((45 * i) / max 1 n : Nat)

/-- Accumulated observable state of a resolution loop. -/
structure ResolveAcc where
  items : List FoodItem
  cache : Cache
  progress : List ProgressCall
  lookupCalls : Nat
  usdaQueries : List String
deriving DecidableEq, Repr

/-- The sequential per-label loop of the fast strategy: emit the
interpolated progress, resolve via the Nutrition Cache, append the item. -/
def fastResolve (usda : String → UsdaReply) (n : Nat) :
    List String → Nat → Cache → ResolveAcc
  | [], _, cache => ⟨[], cache, [], 0, []⟩
  | label :: rest, i, cache =>
    let step := get_macros_for_food cache usda label 1
    let r := step.1
    let tail := fastResolve usda n rest (i + 1) step.2.1
    ⟨{ name := r.name, quantity := r.quantity, macros := r.macros } :: tail.items,
     tail.cache,
     { stage := "Looking up nutrition…", pct := fastLookupPct i n } :: tail.progress,
     tail.lookupCalls + 1,
     step.2.2 ++ tail.usdaQueries⟩

/-- The terminal result of the fast strategy's non-food short-circuit. -/
def NON_FOOD_RESULT : PipelineResult :=
  { original_label := "Non-Food Item Detected", items := [],
    totals := ⟨0, 0, 0, 0⟩, regions := [], annotated_image_path := none,
    raw_response := "The AI determined there is no edible food in this image." }

/-- Observable outcome of one fast-strategy run. -/
structure FastRun where
  progress : List ProgressCall
  result : PipelineResult
  cache : Cache
  lookupCalls : Nat
  usdaQueries : List String
deriving DecidableEq, Repr

/-- `run_pipeline` with `scan_mode = "fast"`.  `original_label` is the
Vision Labeler's answer for the whole image (an oracle value, per the
collaborator interface).  Mirrors the source order: progress 10, labeler
call, progress 45, then the non-food check; otherwise the sequential
resolution loop and progress 100. -/
def run_pipeline_fast (original_label : String) (cache : Cache)
    (usda : String → UsdaReply) : FastRun :=
  let p1 : ProgressCall := ⟨"Analyzing image…", 10⟩
  let p2 : ProgressCall := ⟨"Identifying food…", 45⟩
  if containsNonFood original_label then
    { progress := [p1, p2], result := NON_FOOD_RESULT, cache := cache,
      lookupCalls := 0, usdaQueries := [] }
  else
    let labels := rawLabels original_label
    let acc := fastResolve usda labels.length labels 0 cache
    { progress := [p1, p2] ++ acc.progress ++ [⟨"Done", 100⟩],
      result := { original_label := original_label, items := acc.items,
                  totals := sumMacros acc.items, regions := [],
                  annotated_image_path := none,
                  raw_response := "AI detected: " ++ original_label },
      cache := acc.cache, lookupCalls := acc.lookupCalls,
      usdaQueries := acc.usdaQueries }

/-- Observable state of one crop's processing. -/
structure CropRun where
  items : List FoodItem
  cache : Cache
  lookupCalls : Nat
  lookupLabels : List String
deriving DecidableEq, Repr

/-- The candidate loop of `process_single_crop`: skip a candidate whose
canonical key is empty or trapped by `_titanium_trapdoor` (no Nutrition
Cache call is made for it); otherwise resolve it and append the item. -/
def processCandidates (usda : String → UsdaReply) :
    List String → Cache → CropRun
  | [], cache => ⟨[], cache, 0, []⟩
  | raw :: rest, cache =>
    let key := normalize_food_name raw
    if key = "" || titanium_trapdoor raw then processCandidates usda rest cache
    else
      let step := get_macros_for_food cache usda raw 1
      let r := step.1
      let tail := processCandidates usda rest step.2.1
      ⟨{ name := r.name, quantity := r.quantity, macros := r.macros } :: tail.items,
       tail.cache, tail.lookupCalls + 1, raw :: tail.lookupLabels⟩

/-- `process_single_crop`: classify the crop via the Vision Labeler oracle
`classify`; on the non-food sentinel the crop contributes nothing, else run
the candidate loop over the comma-split label. -/
def process_single_crop (classify : String → String) (usda : String → UsdaReply)
    (cache : Cache) (crop_path : String) : CropRun :=
  let label := classify crop_path
  if containsNonFood label then ⟨[], cache, 0, []⟩
  else processCandidates usda (rawLabels label) cache

/-- Inner loop of the deep fan-in merge: fold one crop's result list into
the accumulated `(items, seen)` state, appending an item (at the end, as
`items.append`) only when its canonical key is non-empty and unseen. -/
def mergeCropList : List FoodItem → List FoodItem × List String → List FoodItem × List String
  | [], acc => acc
  | item :: rest, (items, seen) =>
    let key := normalize_food_name item.name
    if key ≠ "" ∧ ¬ seen.contains key then
      mergeCropList rest (items ++ [item], key :: seen)
    else mergeCropList rest (items, seen)

/-- The fan-in merge of `_run_pipeline_deep`: iterate the per-crop result
lists in crop submission order (as `executor.map` yields them) with one
shared `(items, seen)` state. -/
def deepMergeItems (results : List (List FoodItem)) : List FoodItem :=
  (results.foldl (fun acc lst => mergeCropList lst acc) ([], [])).1

/-- Modelled from the spec (refinement reference for the merge): process the
crops **sequentially in index order**, and within each crop in candidate
order, appending a FoodItem only the first time its canonical name is seen;
subsequent duplicates are silently dropped.  Stated over the concatenation
of the per-crop lists in index order. -/
def seqMergeSpec : List FoodItem → List String → List FoodItem
  | [], _ => []
  | item :: rest, seenNames =>
    let key := normalize_food_name item.name
    if seenNames.contains key then seqMergeSpec rest seenNames
    else item :: seqMergeSpec rest (key :: seenNames)

/-- Modelled from the spec: the deduplicated list obtained by sequential
processing of the crops in index order. -/
def seqProcessSpec (results : List (List FoodItem)) : List FoodItem :=
  seqMergeSpec results.flatten []

/-- Completion-order model of the concurrent fan-out: the futures' results
arrive as `(crop index, items)` pairs in an arbitrary completion order;
`executor.map` hands them to the consuming loop in submission (index) order,
reconstructed here by index lookup. -/
def collectInIndexOrder (arrivals : List (Nat × List FoodItem)) (n : Nat) :
    List (List FoodItem) :=
  (List.range n).map
    (fun i => ((arrivals.find? (fun p => p.1 = i)).map Prod.snd).getD [])

/-- Sequential processing of all crops, threading the shared cache table
(one legal interleaving of the concurrent workers' cache accesses). -/
def processCrops (classify : String → String) (usda : String → UsdaReply) :
    List String → Cache → List (List FoodItem) × Cache
  | [], cache => ([], cache)
  | crop :: rest, cache =>
    let r := process_single_crop classify usda cache crop
    let tail := processCrops classify usda rest r.cache
    (r.items :: tail.1, tail.2)

/-- Outcome of the Segmenter collaborator: unavailable, or an annotated
image path plus region crops (as paths, in region order). -/
inductive SegOutcome : Type
  | unavailable
  | ok (annotated : String) (crops : List String)

/-- Observable outcome of one deep-strategy run; `Except.error ()` models
the `SegmentServiceUnavailable` exception propagating out. -/
structure DeepRun where
  progress : List ProgressCall
  outcome : Except Unit (PipelineResult × Cache)

/-- `pipeline._run_pipeline_deep`.  Progress 5, Segmenter call (re-raising
`SegmentServiceUnavailable`), the zero-crop terminal result, else progress
40, the fan-out over crops, the merge, and the empty / populated terminal
results.  File copying of crops keeps their order and is elided. -/
def run_pipeline_deep (classify : String → String) (usda : String → UsdaReply)
    (seg : SegOutcome) (cache : Cache) : DeepRun :=
  match seg with
  | .unavailable => ⟨[⟨"Isolating items…", 5⟩], .error ()⟩
  | .ok annotated crops =>
    if crops = [] then
      ⟨[⟨"Isolating items…", 5⟩, ⟨"Done", 100⟩],
       .ok ({ original_label := "No food segments detected", items := [],
              totals := ⟨0, 0, 0, 0⟩, regions := [],
              annotated_image_path := some annotated,
              raw_response := "Segmentation found no distinct food regions." },
            cache)⟩
    else
      let pc := processCrops classify usda crops cache
      let items := deepMergeItems pc.1
      if items = [] then
        ⟨[⟨"Isolating items…", 5⟩, ⟨"Identifying food…", 40⟩, ⟨"Done", 100⟩],
         .ok ({ original_label := "No edible food detected in segments", items := [],
                totals := ⟨0, 0, 0, 0⟩, regions := [],
                annotated_image_path := some annotated,
                raw_response := "AI did not identify edible food in the segmented regions." },
              pc.2)⟩
      else
        let all_labels := items.map (fun i => i.name)
        ⟨[⟨"Isolating items…", 5⟩, ⟨"Identifying food…", 40⟩, ⟨"Done", 100⟩],
         .ok ({ original_label := String.intercalate ", " all_labels, items := items,
                totals := sumMacros items, regions := [],
                annotated_image_path := some annotated,
                raw_response := "Deep Scan detected: " ++ String.intercalate ", " all_labels },
              pc.2)⟩

/-! ## Job registry and event log (`main.py`) -/

/-- One entry of a job's append-only event log (`{"type": ..., "data": ...}`);
the Result payload type `π` (the upload payload of `_build_upload_payload`)
is opaque to the log invariants. -/
inductive JobEvent (π : Type) : Type
  | progress (stage : String) (pct : Int)
  | result (payload : π)
  | error (message : String)
deriving DecidableEq

/-- Result and Error are the terminal event kinds. -/
def JobEvent.isTerminal {π : Type} : JobEvent π → Bool
  | .progress _ _ => false
  | .result _ => true
  | .error _ => true

/-- `main.DEEP_SCAN_UNAVAILABLE_MSG`. -/
def DEEP_SCAN_UNAVAILABLE_MSG : String :=
  "Deep Scan engine is currently unavailable. Please use Fast Scan."

/-- How one background execution of `_run_job` ends: normal completion with
an upload payload, the distinct `SegmentServiceUnavailable` failure, or any
other exception with its message. -/
inductive RunOutcome (π : Type) : Type
  | ok (payload : π)
  | segUnavailable
  | failure (message : String)

/-- The terminal event `_run_job` appends for each way the background
execution can end: a Result with the payload, or an Error carrying the fixed
unavailable-service message (for `SegmentServiceUnavailable`) or the raised
failure's message. -/
def terminalEvent {π : Type} : RunOutcome π → JobEvent π
  | .ok payload => JobEvent.result payload
  | .segUnavailable => JobEvent.error DEEP_SCAN_UNAVAILABLE_MSG
  | .failure msg => JobEvent.error msg

/-- The full append sequence one `_run_job` execution performs on its job's
event log: the progress callbacks made by the pipeline (in call order — the
job's single background thread is the only writer, and `_add_job_event`
serializes appends under the registry lock), followed by the single
terminal append chosen by the `try/except` structure. -/
def runJobEvents {π : Type} (pcs : List ProgressCall) (outcome : RunOutcome π) :
    List (JobEvent π) :=
  pcs.map (fun p => JobEvent.progress p.stage p.pct) ++ [terminalEvent outcome]

/-- The job status `_add_job_event` leaves after the terminal append. -/
def finalStatus {π : Type} : RunOutcome π → String
  | .ok _ => "done"
  | .segUnavailable => "error"
  | .failure _ => "error"

/-- `_run_job` for a deep-scan job: run the deep pipeline; when it raises
`SegmentServiceUnavailable`, append the fixed unavailable-service Error;
otherwise build the upload payload (`build`, modelled total) and append the
Result.  Returns the event log and the final status. -/
def run_job_deep {π : Type} (classify : String → String) (usda : String → UsdaReply)
    (seg : SegOutcome) (cache : Cache) (build : PipelineResult → π) :
    List (JobEvent π) × String :=
  let run := run_pipeline_deep classify usda seg cache
  match run.outcome with
  | .error _ =>
    (runJobEvents run.progress (RunOutcome.segUnavailable : RunOutcome π),
     finalStatus (RunOutcome.segUnavailable : RunOutcome π))
  | .ok (pr, _) =>
    (runJobEvents run.progress (RunOutcome.ok (build pr)),
     finalStatus (RunOutcome.ok (build pr)))

/-- Concrete test item: an apple entry as built by the pipeline. -/
def appleItem : FoodItem := ⟨"apple", 1, ⟨0, 0, 0, 0⟩⟩

/-- Concrete test item: a plum entry as built by the pipeline. -/
def plumItem : FoodItem := ⟨"plum", 1, ⟨0, 0, 0, 0⟩⟩

/-- Two crops' result lists with an overlapping canonical name. -/
def cropResultsEx : List (List FoodItem) := [[appleItem, plumItem], [appleItem]]

/-- The same per-crop results tagged with their crop indices, arriving in
reversed completion order (crop 1 finishes first). -/
def arrivalsEx : List (Nat × List FoodItem) :=
  [(1, [appleItem]), (0, [appleItem, plumItem])]

/-! ## Verification: cache table lemmas -/

/-- Reading a cons cell of the cache table. -/
theorem get_food_from_cache_cons (p : String × CacheEntry) (t : Cache) (k : String) :
    get_food_from_cache (p :: t) k
      = if p.1 = k then some p.2 else get_food_from_cache t k := by
  by_cases hp : p.1 = k
  · simp [get_food_from_cache, List.find?_cons_of_pos, hp]
  · simp [get_food_from_cache, List.find?_cons_of_neg, hp]

/-- Unfolding the upsert one cons cell at a time: a matching head is
replaced (and the rest of the table gets the same replacement map); a
non-matching head is kept and the upsert recurses. -/
theorem insert_food_cache_cons (p : String × CacheEntry) (t : Cache)
    (k : String) (e : CacheEntry) :
    insert_food_cache (p :: t) k e
      = if p.1 = k then
          (k, e) :: t.map (fun q => if q.1 = k then (k, e) else q)
        else p :: insert_food_cache t k e := by
  by_cases hp : p.1 = k
  · simp [insert_food_cache, List.any_cons, hp]
  · by_cases ha : t.any (fun q => q.1 = k)
    · simp [insert_food_cache, List.any_cons, hp, ha]
    · simp [insert_food_cache, List.any_cons, hp, ha]

/-- The replacement map of the conflict branch does not affect reads of a
different key. -/
theorem get_map_replace_ne (t : Cache) (k k2 : String) (e : CacheEntry)
    (h : k2 ≠ k) :
    get_food_from_cache (t.map (fun q => if q.1 = k then (k, e) else q)) k2
      = get_food_from_cache t k2 := by
  induction t with
  | nil => rfl
  | cons q t ih =>
    rw [List.map_cons, get_food_from_cache_cons, get_food_from_cache_cons]
    by_cases hq : q.1 = k
    · have h1 : ¬ ((k, e) : String × CacheEntry).1 = k2 := fun hh => h hh.symm
      have h2 : ¬ q.1 = k2 := fun hh => h (hh.symm.trans hq)
      rw [if_pos hq, if_neg h1, if_neg h2, ih]
    · rw [if_neg hq, ih]

/-- Upsert then read back the same key: the new entry is returned,
whether or not a row for the key already existed. -/
theorem get_insert_self (c : Cache) (k : String) (e : CacheEntry) :
    get_food_from_cache (insert_food_cache c k e) k = some e := by
  induction c with
  | nil => simp [insert_food_cache, get_food_from_cache]
  | cons p t ih =>
    rw [insert_food_cache_cons]
    by_cases hp : p.1 = k
    · rw [if_pos hp, get_food_from_cache_cons, if_pos rfl]
    · rw [if_neg hp, get_food_from_cache_cons, if_neg hp]
      exact ih

/-- Upsert leaves every other key's row unchanged. -/
theorem get_insert_ne (c : Cache) (k k2 : String) (e : CacheEntry)
    (h : k2 ≠ k) :
    get_food_from_cache (insert_food_cache c k e) k2 = get_food_from_cache c k2 := by
  induction c with
  | nil =>
    have h1 : ¬ ((k, e) : String × CacheEntry).1 = k2 := fun hh => h hh.symm
    show get_food_from_cache ([] ++ [(k, e)]) k2 = _
    rw [List.nil_append, get_food_from_cache_cons, if_neg h1]
  | cons p t ih =>
    rw [insert_food_cache_cons]
    by_cases hp : p.1 = k
    · rw [if_pos hp, get_food_from_cache_cons, get_food_from_cache_cons]
      have h1 : ¬ ((k, e) : String × CacheEntry).1 = k2 := fun hh => h hh.symm
      have h2 : ¬ p.1 = k2 := fun hh => h (hh.symm.trans hp)
      rw [if_neg h1, if_neg h2]
      exact get_map_replace_ne t k k2 e h
    · rw [if_neg hp, get_food_from_cache_cons, get_food_from_cache_cons]
      by_cases hp2 : p.1 = k2
      · rw [if_pos hp2, if_pos hp2]
      · rw [if_neg hp2, if_neg hp2]
        exact ih

/-! ## Verification: event-log invariants -/

/-- Progress events are filtered out by the terminal-event predicate. -/
theorem filter_isTerminal_map_progress {π : Type} (pcs : List ProgressCall) :
    ((pcs.map (fun p => (JobEvent.progress p.stage p.pct : JobEvent π))).filter
      JobEvent.isTerminal) = [] := by
  induction pcs with
  | nil => rfl
  | cons p t ih => simp [List.filter_cons, JobEvent.isTerminal, ih]

/-- The terminal append of `_run_job` is terminal for every outcome. -/
theorem isTerminal_terminalEvent {π : Type} (o : RunOutcome π) :
    (terminalEvent o).isTerminal = true := by
  cases o <;> rfl

/-- C1: a job's event log contains exactly one terminal (Result or Error)
event, that event is the last element, every earlier element is a Progress
event, and no proper prefix of the log (the log as any observer can see it
before the final append) contains a terminal event — the log never grows
once the terminal event is present.  This holds for every interleaving
permitted by `_run_job` / `_add_job_event`: the job's single background
thread is the only writer and the registry lock serializes appends, so the
append order is the program order modelled by `runJobEvents`. -/
theorem job_log_single_terminal {π : Type} (pcs : List ProgressCall)
    (outcome : RunOutcome π) :
    ((runJobEvents pcs outcome).filter JobEvent.isTerminal).length = 1
    ∧ (runJobEvents pcs outcome).getLast? = some (terminalEvent outcome)
    ∧ (∀ e ∈ (runJobEvents pcs outcome).dropLast, e.isTerminal = false)
    ∧ (∀ k, k < (runJobEvents pcs outcome).length →
        ∀ e ∈ (runJobEvents pcs outcome).take k, e.isTerminal = false) := by
  refine ⟨?_, ?_, ?_, ?_⟩
  · simp [runJobEvents, List.filter_append, filter_isTerminal_map_progress,
      isTerminal_terminalEvent]
  · simp [runJobEvents, List.getLast?_concat]
  · intro e he
    rw [runJobEvents, List.dropLast_concat] at he
    obtain ⟨p, hp, rfl⟩ := List.mem_map.mp he
    rfl
  · intro k hk e he
    rw [runJobEvents] at he hk
    have hk2 : k ≤ pcs.length := by
      simp only [List.length_append, List.length_map, List.length_cons,
        List.length_nil] at hk
      omega
    rw [List.take_append_of_le_length (by simpa using hk2)] at he
    have hmem := List.take_subset k _ he
    obtain ⟨p, hp, rfl⟩ := List.mem_map.mp hmem
    rfl

/-- C1 witness: on a concrete run (one progress call, normal completion)
the log has exactly one terminal event. -/
theorem job_log_single_terminal_witness :
    ((runJobEvents [⟨"s", 1⟩] (RunOutcome.ok () : RunOutcome Unit)).filter
      JobEvent.isTerminal).length = 1 :=
  (job_log_single_terminal [⟨"s", 1⟩] (RunOutcome.ok () : RunOutcome Unit)).1

/-- C7: when the Segmenter signals unavailability on a deep-scan job, the
deep pipeline propagates the distinct `SegmentServiceUnavailable` failure
(`Except.error`, not a generic message), and the job's log ends with exactly
one Error event carrying the fixed unavailable-service message, with status
`"error"`; moreover for any number of preceding Progress events the only
terminal event of such a log is that Error, and it is last. -/
theorem deep_unavailable_error_event {π : Type} (classify : String → String)
    (usda : String → UsdaReply) (cache : Cache) (build : PipelineResult → π) :
    (run_pipeline_deep classify usda SegOutcome.unavailable cache).outcome
      = Except.error ()
    ∧ (run_job_deep classify usda SegOutcome.unavailable cache build).1
        = [JobEvent.progress "Isolating items…" 5,
           JobEvent.error DEEP_SCAN_UNAVAILABLE_MSG]
    ∧ (run_job_deep classify usda SegOutcome.unavailable cache build).2 = "error"
    ∧ (∀ pcs : List ProgressCall,
        ((runJobEvents pcs (RunOutcome.segUnavailable : RunOutcome π)).filter
            JobEvent.isTerminal) = [JobEvent.error DEEP_SCAN_UNAVAILABLE_MSG]
        ∧ (runJobEvents pcs (RunOutcome.segUnavailable : RunOutcome π)).getLast?
            = some (JobEvent.error DEEP_SCAN_UNAVAILABLE_MSG)) := by
  refine ⟨rfl, rfl, rfl, fun pcs => ⟨?_, ?_⟩⟩
  · simp [runJobEvents, List.filter_append, filter_isTerminal_map_progress,
      terminalEvent, JobEvent.isTerminal]
  · simp [runJobEvents, List.getLast?_concat, terminalEvent]

/-! ## Verification: fast strategy -/

/-- C6: whenever the Vision Labeler's whole-image label contains the
non-food sentinel (case-insensitively), the fast strategy returns the fixed
terminal non-food result — empty items, all-zero totals, fixed diagnostic —
with the cache untouched, zero Nutrition Cache lookups and zero Nutrition
Source queries. -/
theorem fast_nonfood_shortcircuit (label : String) (cache : Cache)
    (usda : String → UsdaReply) (h : containsNonFood label = true) :
    run_pipeline_fast label cache usda =
      { progress := [⟨"Analyzing image…", 10⟩, ⟨"Identifying food…", 45⟩],
        result := NON_FOOD_RESULT, cache := cache,
        lookupCalls := 0, usdaQueries := [] }
    ∧ NON_FOOD_RESULT.items = [] ∧ NON_FOOD_RESULT.totals = ⟨0, 0, 0, 0⟩ := by
  refine ⟨?_, rfl, rfl⟩
  simp [run_pipeline_fast, h]

/-- C6 witness: the label `"NON_FOOD"` triggers the short-circuit. -/
theorem fast_nonfood_shortcircuit_witness :
    containsNonFood "NON_FOOD" = true
    ∧ (run_pipeline_fast "NON_FOOD" [] (fun q => ⟨q, 0, 0, 0, 0, ""⟩) =
        { progress := [⟨"Analyzing image…", 10⟩, ⟨"Identifying food…", 45⟩],
          result := NON_FOOD_RESULT, cache := [],
          lookupCalls := 0, usdaQueries := [] }
       ∧ NON_FOOD_RESULT.items = [] ∧ NON_FOOD_RESULT.totals = ⟨0, 0, 0, 0⟩) :=
  ⟨by decide, fast_nonfood_shortcircuit "NON_FOOD" [] (fun q => ⟨q, 0, 0, 0, 0, ""⟩)
    (by decide)⟩

/-- C9 counterexample: on the sentinel label the fast strategy has already
emitted two progress events — `("Analyzing image…", 10)` and
`("Identifying food…", 45)` — before short-circuiting; the progress
sequence is not the single event the claim states (the 45% emission
precedes the non-food check in the code). -/
theorem fast_nonfood_progress_counterexample :
    (run_pipeline_fast "NON_FOOD" [] (fun q => ⟨q, 0, 0, 0, 0, ""⟩)).progress
      = [⟨"Analyzing image…", 10⟩, ⟨"Identifying food…", 45⟩]
    ∧ (run_pipeline_fast "NON_FOOD" [] (fun q => ⟨q, 0, 0, 0, 0, ""⟩)).progress.length
      ≠ 1 := by
  decide

/-- C9 (amended): the non-food short-circuit happens after the
`("Identifying food…", 45)` emission; for every fast run whose label
contains the sentinel the progress sequence before the terminal result is
exactly `[("Analyzing image…", 10), ("Identifying food…", 45)]`. -/
theorem fast_nonfood_progress_sequence (label : String) (cache : Cache)
    (usda : String → UsdaReply) (h : containsNonFood label = true) :
    (run_pipeline_fast label cache usda).progress
      = [⟨"Analyzing image…", 10⟩, ⟨"Identifying food…", 45⟩] := by
  simp [run_pipeline_fast, h]

/-- C9 witness: the amended progress sequence at the concrete sentinel. -/
theorem fast_nonfood_progress_sequence_witness :
    containsNonFood "NON_FOOD" = true
    ∧ (run_pipeline_fast "NON_FOOD" [] (fun q => ⟨q, 0, 0, 0, 0, ""⟩)).progress
        = [⟨"Analyzing image…", 10⟩, ⟨"Identifying food…", 45⟩] :=
  ⟨by decide, fast_nonfood_progress_sequence "NON_FOOD" []
    (fun q => ⟨q, 0, 0, 0, 0, ""⟩) (by decide)⟩

/-! ## Verification: deep strategy -/

/-- C8: a candidate whose canonical key is empty or on the non-food
blocklist is dropped by the crop candidate loop before any Nutrition Cache
lookup: processing it changes nothing — no FoodItem, no lookup call, no
cache access. -/
theorem crop_blocklist_drop (usda : String → UsdaReply) (raw : String)
    (rest : List String) (cache : Cache)
    (h : normalize_food_name raw = ""
      ∨ normalize_food_name raw ∈ NON_FOOD_BLOCKLIST) :
    processCandidates usda (raw :: rest) cache = processCandidates usda rest cache := by
  have ht : titanium_trapdoor raw = true := by
    rcases h with h | h <;> simp [titanium_trapdoor, h]
  simp [processCandidates, ht]

/-- C8 witness: `"plate"` and `"fork"` are both dropped, so a crop whose
candidates are exactly those two yields no items and no cache lookups. -/
theorem crop_blocklist_drop_witness :
    (normalize_food_name "plate" ∈ NON_FOOD_BLOCKLIST)
    ∧ (normalize_food_name "fork" ∈ NON_FOOD_BLOCKLIST)
    ∧ processCandidates (fun q => ⟨q, 0, 0, 0, 0, ""⟩) ["plate", "fork"] []
        = ⟨[], [], 0, []⟩ :=
  ⟨by decide, by decide,
    (crop_blocklist_drop (fun q => ⟨q, 0, 0, 0, 0, ""⟩) "plate" ["fork"] []
      (Or.inr (by decide))).trans
    ((crop_blocklist_drop (fun q => ⟨q, 0, 0, 0, 0, ""⟩) "fork" [] []
      (Or.inr (by decide))).trans rfl)⟩

/-- C10: every `PipelineResult` the deep strategy returns (zero crops, no
edible items, or a populated result) has an empty `regions` list. -/
theorem deep_result_regions_empty (classify : String → String)
    (usda : String → UsdaReply) (seg : SegOutcome) (cache : Cache)
    (pr : PipelineResult) (c2 : Cache)
    (h : (run_pipeline_deep classify usda seg cache).outcome = Except.ok (pr, c2)) :
    pr.regions = [] := by
  cases seg with
  | unavailable => simp [run_pipeline_deep] at h
  | ok annotated crops =>
    by_cases hc : crops = []
    · simp only [run_pipeline_deep, hc, if_true, Except.ok.injEq, Prod.mk.injEq] at h
      rw [← h.1]
    · by_cases hi : deepMergeItems (processCrops classify usda crops cache).1 = []
      · simp only [run_pipeline_deep, hc, if_false, hi, if_true, Except.ok.injEq,
          Prod.mk.injEq] at h
        rw [← h.1]
      · simp only [run_pipeline_deep, hc, if_false, hi, Except.ok.injEq,
          Prod.mk.injEq] at h
        rw [← h.1]

/-- C10 witness: a zero-crop segmentation yields a result whose `regions`
is empty. -/
theorem deep_result_regions_empty_witness :
    ((run_pipeline_deep (fun _ => "x") (fun q => ⟨q, 0, 0, 0, 0, ""⟩)
        (SegOutcome.ok "a" []) []).outcome
      = Except.ok
          (({ original_label := "No food segments detected", items := [],
              totals := ⟨0, 0, 0, 0⟩, regions := [],
              annotated_image_path := some "a",
              raw_response := "Segmentation found no distinct food regions." } :
            PipelineResult), ([] : Cache)))
    ∧ ({ original_label := "No food segments detected", items := [],
         totals := ⟨0, 0, 0, 0⟩, regions := [],
         annotated_image_path := some "a",
         raw_response := "Segmentation found no distinct food regions." } :
        PipelineResult).regions = [] :=
  ⟨rfl,
    deep_result_regions_empty (fun _ => "x") (fun q => ⟨q, 0, 0, 0, 0, ""⟩)
      (SegOutcome.ok "a" []) []
      { original_label := "No food segments detected", items := [],
        totals := ⟨0, 0, 0, 0⟩, regions := [],
        annotated_image_path := some "a",
        raw_response := "Segmentation found no distinct food regions." }
      [] rfl⟩

/-! ## Verification: nutrition cache lookup -/

/-- C3: when the canonical key of a raw label is cached, `get_macros_for_food`
returns the cached per-100g macros scaled componentwise by the requested
quantity with `macros_incomplete = false`, leaves the cache unchanged, and
issues no Nutrition Source query; a repeated lookup of the same raw label
after any first lookup issues no query either (the first lookup's upsert
guarantees a hit); and the concrete banana scenario: with `"banana"` cached
at 105 cal / 1.3 protein / 27 carbs / 0.4 fat per 100g, looking up
`"Banana"` at quantity 2 returns 210 / 2.6 / 54 / 0.8 with no external
call, for every Nutrition Source oracle. -/
theorem cache_hit_no_fetch (cache : Cache) (usda : String → UsdaReply)
    (label : String) (q q2 : ℚ) :
    (∀ e : CacheEntry, get_food_from_cache cache (lookupKey label) = some e →
      get_macros_for_food cache usda label q =
        ({ name := lookupKey label, quantity := q,
           macros := ⟨e.calories * q, e.protein * q, e.carbs * q, e.fat * q⟩,
           raw_response := "", macros_incomplete := false }, cache, []))
    ∧ (get_macros_for_food (get_macros_for_food cache usda label q).2.1 usda
        label q2).2.2 = []
    ∧ get_macros_for_food [("banana", ⟨"banana", 105, 1.3, 27, 0.4, "100g"⟩)]
        usda "Banana" 2
      = ({ name := "banana", quantity := 2, macros := ⟨210, 2.6, 54, 0.8⟩,
           raw_response := "", macros_incomplete := false },
         [("banana", ⟨"banana", 105, 1.3, 27, 0.4, "100g"⟩)], []) := by
  refine ⟨?_, ?_, ?_⟩
  · intro e he
    simp [get_macros_for_food, he]
  · rcases hcase : get_food_from_cache cache (lookupKey label) with _ | e
    · simp [get_macros_for_food, hcase, get_insert_self]
    · simp [get_macros_for_food, hcase]
  · have hb : get_macros_for_food
        [("banana", ⟨"banana", 105, 1.3, 27, 0.4, "100g"⟩)] usda "Banana" 2
        = ({ name := "banana", quantity := 2,
             macros := ⟨(105 : ℚ) * 2, (1.3 : ℚ) * 2, (27 : ℚ) * 2, (0.4 : ℚ) * 2⟩,
             raw_response := "", macros_incomplete := false },
           [("banana", ⟨"banana", 105, 1.3, 27, 0.4, "100g"⟩)], []) := rfl
    refine hb.trans ?_
    norm_num

/-- C3 witness: the banana cache hit at quantity 2, with a call-counting
stub oracle (never invoked: the query list is empty). -/
theorem cache_hit_no_fetch_witness :
    get_food_from_cache [("banana", ⟨"banana", 105, 1.3, 27, 0.4, "100g"⟩)]
        (lookupKey "Banana")
      = some ⟨"banana", 105, 1.3, 27, 0.4, "100g"⟩
    ∧ get_macros_for_food [("banana", ⟨"banana", 105, 1.3, 27, 0.4, "100g"⟩)]
        (fun s => ⟨s, 0, 0, 0, 0, ""⟩) "Banana" 2
      = ({ name := lookupKey "Banana", quantity := 2,
           macros := ⟨(105 : ℚ) * 2, (1.3 : ℚ) * 2, (27 : ℚ) * 2, (0.4 : ℚ) * 2⟩,
           raw_response := "", macros_incomplete := false },
         [("banana", ⟨"banana", 105, 1.3, 27, 0.4, "100g"⟩)], []) :=
  ⟨rfl,
    (cache_hit_no_fetch [("banana", ⟨"banana", 105, 1.3, 27, 0.4, "100g"⟩)]
      (fun s => ⟨s, 0, 0, 0, 0, ""⟩) "Banana" 2 1).1
      ⟨"banana", 105, 1.3, 27, 0.4, "100g"⟩ rfl⟩

/-- C5: the cache-miss path.  On a miss, `get_macros_for_food` returns the
fetched per-100g macros scaled by the quantity and upserts them (with the
corrected label) under the canonical key, so the key is present afterwards
even when the result is incomplete; the first Nutrition Source query uses
the humanized label; when that reply is all-zero and the humanized label
has several words the Source is retried with the last word alone (and the
retry's values are kept exactly when it is not all-zero); a still-all-zero
final reply sets `macros_incomplete = true`; and the upsert overwrites an
existing row's label and macros unconditionally while leaving other keys
unchanged. -/
theorem cache_miss_fetch_upsert (cache : Cache) (usda : String → UsdaReply)
    (label : String) (q : ℚ) :
    (get_food_from_cache cache (lookupKey label) = none →
      get_macros_for_food cache usda label q =
        ({ name := lookupKey label, quantity := q,
           macros := ⟨(fetch_macros_from_usda usda label).1.calories * q,
                      (fetch_macros_from_usda usda label).1.protein * q,
                      (fetch_macros_from_usda usda label).1.carbs * q,
                      (fetch_macros_from_usda usda label).1.fat * q⟩,
           raw_response := (fetch_macros_from_usda usda label).1.raw_response,
           macros_incomplete := (fetch_macros_from_usda usda label).1.macros_incomplete },
         insert_food_cache cache (lookupKey label)
           ⟨(fetch_macros_from_usda usda label).1.corrected,
            (fetch_macros_from_usda usda label).1.calories,
            (fetch_macros_from_usda usda label).1.protein,
            (fetch_macros_from_usda usda label).1.carbs,
            (fetch_macros_from_usda usda label).1.fat, "100g"⟩,
         (fetch_macros_from_usda usda label).2)
      ∧ get_food_from_cache (get_macros_for_food cache usda label q).2.1
          (lookupKey label)
        = some ⟨(fetch_macros_from_usda usda label).1.corrected,
                (fetch_macros_from_usda usda label).1.calories,
                (fetch_macros_from_usda usda label).1.protein,
                (fetch_macros_from_usda usda label).1.carbs,
                (fetch_macros_from_usda usda label).1.fat, "100g"⟩)
    ∧ (fetch_macros_from_usda usda label).2.head? = some (humanize label)
    ∧ (allZero (usda (humanize label)) = false →
        (fetch_macros_from_usda usda label).2 = [humanize label]
        ∧ (fetch_macros_from_usda usda label).1.macros_incomplete = false)
    ∧ (allZero (usda (humanize label)) = true →
       ¬ (pySplitWs (humanize label).data).length > 1 →
        (fetch_macros_from_usda usda label).2 = [humanize label]
        ∧ (fetch_macros_from_usda usda label).1.macros_incomplete = true)
    ∧ (allZero (usda (humanize label)) = true →
       (pySplitWs (humanize label).data).length > 1 →
        (fetch_macros_from_usda usda label).2
          = [humanize label,
             String.mk ((pySplitWs (humanize label).data).getLastD [])]
        ∧ (fetch_macros_from_usda usda label).1.macros_incomplete
            = allZero (usda (String.mk ((pySplitWs (humanize label).data).getLastD [])))
        ∧ (allZero (usda (String.mk ((pySplitWs (humanize label).data).getLastD [])))
              = false →
            (fetch_macros_from_usda usda label).1.calories
                = (usda (String.mk ((pySplitWs (humanize label).data).getLastD []))).calories
            ∧ (fetch_macros_from_usda usda label).1.protein
                = (usda (String.mk ((pySplitWs (humanize label).data).getLastD []))).protein
            ∧ (fetch_macros_from_usda usda label).1.carbs
                = (usda (String.mk ((pySplitWs (humanize label).data).getLastD []))).carbs
            ∧ (fetch_macros_from_usda usda label).1.fat
                = (usda (String.mk ((pySplitWs (humanize label).data).getLastD []))).fat
            ∧ (fetch_macros_from_usda usda label).1.corrected
                = (usda (String.mk ((pySplitWs (humanize label).data).getLastD []))).corrected))
    ∧ (∀ (c : Cache) (k : String) (e : CacheEntry),
        get_food_from_cache (insert_food_cache c k e) k = some e
        ∧ ∀ k2, k2 ≠ k →
            get_food_from_cache (insert_food_cache c k e) k2
              = get_food_from_cache c k2) := by
  refine ⟨?_, ?_, ?_, ?_, ?_, ?_⟩
  · intro hm
    constructor
    · simp [get_macros_for_food, hm]
    · simp [get_macros_for_food, hm, get_insert_self]
  · simp only [fetch_macros_from_usda]
    split
    · split
      · split
        · rfl
        · rfl
      · rfl
    · rfl
  · intro hA
    simp [fetch_macros_from_usda, hA]
  · intro hA hw
    simp [fetch_macros_from_usda, hA, hw]
  · intro hA hw
    by_cases hB :
        allZero (usda (String.mk ((pySplitWs (humanize label).data).getLastD [])))
    · simp only [List.getLastD_eq_getLast?] at hB ⊢
      simp [fetch_macros_from_usda, hA, hw, hB]
    · simp only [List.getLastD_eq_getLast?] at hB ⊢
      simp [fetch_macros_from_usda, hA, hw, hB]
  · exact fun c k e =>
      ⟨get_insert_self c k e, fun k2 hk => get_insert_ne c k k2 e hk⟩

/-- C5 witness: a miss on `"grilled_tofu"` with an oracle that answers
all-zero for `"grilled tofu"` and non-zero for `"tofu"`: the Source is
queried with the humanized label then retried with the last word, the
retry's values are kept, and the result is cached under the canonical key. -/
theorem cache_miss_fetch_upsert_witness :
    get_food_from_cache [] (lookupKey "grilled_tofu") = none
    ∧ (get_macros_for_food []
         (fun s => if s = "tofu" then ⟨"Tofu", 76, 8, 1.9, 4.8, "raw"⟩
                   else ⟨s, 0, 0, 0, 0, ""⟩)
         "grilled_tofu" 1 =
        ({ name := lookupKey "grilled_tofu", quantity := 1,
           macros :=
             ⟨(fetch_macros_from_usda
                 (fun s => if s = "tofu" then ⟨"Tofu", 76, 8, 1.9, 4.8, "raw"⟩
                           else ⟨s, 0, 0, 0, 0, ""⟩) "grilled_tofu").1.calories * 1,
              (fetch_macros_from_usda
                 (fun s => if s = "tofu" then ⟨"Tofu", 76, 8, 1.9, 4.8, "raw"⟩
                           else ⟨s, 0, 0, 0, 0, ""⟩) "grilled_tofu").1.protein * 1,
              (fetch_macros_from_usda
                 (fun s => if s = "tofu" then ⟨"Tofu", 76, 8, 1.9, 4.8, "raw"⟩
                           else ⟨s, 0, 0, 0, 0, ""⟩) "grilled_tofu").1.carbs * 1,
              (fetch_macros_from_usda
                 (fun s => if s = "tofu" then ⟨"Tofu", 76, 8, 1.9, 4.8, "raw"⟩
                           else ⟨s, 0, 0, 0, 0, ""⟩) "grilled_tofu").1.fat * 1⟩,
           raw_response :=
             (fetch_macros_from_usda
                (fun s => if s = "tofu" then ⟨"Tofu", 76, 8, 1.9, 4.8, "raw"⟩
                          else ⟨s, 0, 0, 0, 0, ""⟩) "grilled_tofu").1.raw_response,
           macros_incomplete :=
             (fetch_macros_from_usda
                (fun s => if s = "tofu" then ⟨"Tofu", 76, 8, 1.9, 4.8, "raw"⟩
                          else ⟨s, 0, 0, 0, 0, ""⟩) "grilled_tofu").1.macros_incomplete },
         insert_food_cache [] (lookupKey "grilled_tofu")
           ⟨(fetch_macros_from_usda
               (fun s => if s = "tofu" then ⟨"Tofu", 76, 8, 1.9, 4.8, "raw"⟩
                         else ⟨s, 0, 0, 0, 0, ""⟩) "grilled_tofu").1.corrected,
            (fetch_macros_from_usda
               (fun s => if s = "tofu" then ⟨"Tofu", 76, 8, 1.9, 4.8, "raw"⟩
                         else ⟨s, 0, 0, 0, 0, ""⟩) "grilled_tofu").1.calories,
            (fetch_macros_from_usda
               (fun s => if s = "tofu" then ⟨"Tofu", 76, 8, 1.9, 4.8, "raw"⟩
                         else ⟨s, 0, 0, 0, 0, ""⟩) "grilled_tofu").1.protein,
            (fetch_macros_from_usda
               (fun s => if s = "tofu" then ⟨"Tofu", 76, 8, 1.9, 4.8, "raw"⟩
                         else ⟨s, 0, 0, 0, 0, ""⟩) "grilled_tofu").1.carbs,
            (fetch_macros_from_usda
               (fun s => if s = "tofu" then ⟨"Tofu", 76, 8, 1.9, 4.8, "raw"⟩
                         else ⟨s, 0, 0, 0, 0, ""⟩) "grilled_tofu").1.fat, "100g"⟩,
         (fetch_macros_from_usda
            (fun s => if s = "tofu" then ⟨"Tofu", 76, 8, 1.9, 4.8, "raw"⟩
                      else ⟨s, 0, 0, 0, 0, ""⟩) "grilled_tofu").2))
    ∧ (fetch_macros_from_usda
         (fun s => if s = "tofu" then ⟨"Tofu", 76, 8, 1.9, 4.8, "raw"⟩
                   else ⟨s, 0, 0, 0, 0, ""⟩) "grilled_tofu").2
        = ["grilled tofu", "tofu"] :=
  ⟨rfl,
    ((cache_miss_fetch_upsert []
        (fun s => if s = "tofu" then ⟨"Tofu", 76, 8, 1.9, 4.8, "raw"⟩
                  else ⟨s, 0, 0, 0, 0, ""⟩)
        "grilled_tofu" 1).1 rfl).1,
    by
      have h := ((cache_miss_fetch_upsert []
          (fun s => if s = "tofu" then ⟨"Tofu", 76, 8, 1.9, 4.8, "raw"⟩
                    else ⟨s, 0, 0, 0, 0, ""⟩)
          "grilled_tofu" 1).2.2.2.2.1 rfl (by decide)).1
      exact h.trans rfl⟩

/-! ## Verification: deep-merge determinism -/

/-- The fan-in inner loop distributes over concatenation of crop lists. -/
theorem mergeCropList_append (l1 l2 : List FoodItem)
    (acc : List FoodItem × List String) :
    mergeCropList (l1 ++ l2) acc = mergeCropList l2 (mergeCropList l1 acc) := by
  induction l1 generalizing acc with
  | nil => rfl
  | cons item rest ih =>
    rcases acc with ⟨items, seen⟩
    simp only [List.cons_append, mergeCropList]
    by_cases hc : normalize_food_name item.name ≠ ""
        ∧ ¬ seen.contains (normalize_food_name item.name)
    · rw [if_pos hc, if_pos hc]
      exact ih _
    · rw [if_neg hc, if_neg hc]
      exact ih _

/-- The nested loop over per-crop lists with one shared `(items, seen)`
state equals the flat loop over their concatenation. -/
theorem deepMerge_foldl_flatten (results : List (List FoodItem))
    (acc : List FoodItem × List String) :
    results.foldl (fun acc lst => mergeCropList lst acc) acc
      = mergeCropList results.flatten acc := by
  induction results generalizing acc with
  | nil => rfl
  | cons l rest ih =>
    rw [List.foldl_cons, ih, List.flatten_cons, mergeCropList_append]

/-- When every item's canonical key is non-empty (as is the case for items
built by `get_macros_for_food`, whose names are non-empty keys), the source
merge loop computes exactly the spec's sequential first-seen merge. -/
theorem mergeCropList_eq_seqMergeSpec (l : List FoodItem)
    (h : ∀ it ∈ l, normalize_food_name it.name ≠ "")
    (items : List FoodItem) (seen : List String) :
    (mergeCropList l (items, seen)).1 = items ++ seqMergeSpec l seen := by
  induction l generalizing items seen with
  | nil => simp [mergeCropList, seqMergeSpec]
  | cons item rest ih =>
    have hkey : normalize_food_name item.name ≠ "" := h item (by simp)
    have hrest : ∀ it ∈ rest, normalize_food_name it.name ≠ "" :=
      fun it hit => h it (by simp [hit])
    simp only [mergeCropList, seqMergeSpec]
    by_cases hc : seen.contains (normalize_food_name item.name)
    · rw [if_neg (fun hand => hand.2 hc), if_pos hc, ih hrest]
    · rw [if_pos ⟨hkey, hc⟩, if_neg hc, ih hrest, List.append_assoc,
        List.singleton_append]

/-- The sequential first-seen merge produces pairwise-distinct canonical
keys, none of which was already seen. -/
theorem seqMergeSpec_nodup_keys (l : List FoodItem) (seen : List String) :
    ((seqMergeSpec l seen).map (fun it => normalize_food_name it.name)).Nodup
    ∧ (∀ it ∈ seqMergeSpec l seen,
        seen.contains (normalize_food_name it.name) = false) := by
  induction l generalizing seen with
  | nil => exact ⟨List.nodup_nil, by simp [seqMergeSpec]⟩
  | cons item rest ih =>
    simp only [seqMergeSpec]
    by_cases hc : seen.contains (normalize_food_name item.name)
    · rw [if_pos hc]
      exact ih seen
    · rw [if_neg hc]
      obtain ⟨ihn, ihc⟩ := ih (normalize_food_name item.name :: seen)
      refine ⟨?_, ?_⟩
      · rw [List.map_cons, List.nodup_cons]
        refine ⟨?_, ihn⟩
        intro hmem
        obtain ⟨it, hit, heq⟩ := List.mem_map.mp hmem
        have hcontains := ihc it hit
        rw [List.contains_cons] at hcontains
        have : (normalize_food_name it.name
            == normalize_food_name item.name) = false := by
          cases hor : (normalize_food_name it.name
              == normalize_food_name item.name)
          · rfl
          · rw [hor] at hcontains; simp at hcontains
        exact absurd (beq_iff_eq.mpr heq) (by simp [this])
      · intro it hit
        rcases List.mem_cons.mp hit with rfl | hit2
        · exact Bool.eq_false_iff.mpr hc
        · have hcontains := ihc it hit2
          rw [List.contains_cons] at hcontains
          exact (Bool.or_eq_false_iff.mp hcontains).2

/-- In a list of index-tagged results with pairwise-distinct indices, index
lookup finds exactly the tagged entry. -/
theorem find?_index_of_nodup (l : List (Nat × List FoodItem)) (i : Nat)
    (x : List FoodItem) (hmem : (i, x) ∈ l) (hnd : (l.map Prod.fst).Nodup) :
    l.find? (fun p => p.1 = i) = some (i, x) := by
  induction l with
  | nil => cases hmem
  | cons q t ih =>
    rw [List.map_cons, List.nodup_cons] at hnd
    rcases List.mem_cons.mp hmem with heq | hmem2
    · subst heq
      simp
    · have hq : ¬ (q.1 = i) := by
        intro hqi
        exact hnd.1 (hqi ▸ List.mem_map.mpr ⟨(i, x), hmem2, rfl⟩)
      rw [List.find?_cons_of_neg _ (by simpa using hq)]
      exact ih hmem2 hnd.2

/-- `executor.map` delivery: reconstructing index order from any completion
order (any permutation of the index-tagged per-crop results) recovers the
per-crop result lists in submission order. -/
theorem collectInIndexOrder_perm (results : List (List FoodItem))
    (arrivals : List (Nat × List FoodItem))
    (hperm : arrivals.Perm results.enum) :
    collectInIndexOrder arrivals results.length = results := by
  have hnd : (arrivals.map Prod.fst).Nodup :=
    (hperm.map Prod.fst).nodup_iff.mpr (List.nodup_enum_map_fst results)
  apply List.ext_getElem
  · simp [collectInIndexOrder]
  · intro i h1 h2
    have hmem : (i, results[i]) ∈ arrivals := by
      apply hperm.mem_iff.mpr
      have hlt : i < results.enum.length := by simpa using h2
      have hg : (results.enum)[i] = (i, results[i]) := by simp
      exact hg ▸ List.getElem_mem _
    have hfind := find?_index_of_nodup arrivals i results[i] hmem hnd
    simp [collectInIndexOrder, hfind]

/-- A non-empty string canonicalizes to a non-empty key (`s or "unknown"`). -/
theorem normalize_food_name_ne_empty (s : String) (h : s ≠ "") :
    normalize_food_name s ≠ "" := by
  cases s with
  | mk data =>
    cases data with
    | nil => exact absurd rfl h
    | cons c cs =>
      rw [normalize_food_name]
      rw [if_neg (by simp)]
      by_cases hr : normalizeChars (String.mk (c :: cs)).data = []
      · rw [if_pos hr]
        decide
      · rw [if_neg hr]
        intro hcon
        exact hr (by simpa using congrArg String.data hcon)

/-- C2: determinism of the deep-strategy fan-in merge.  For per-crop result
lists whose item names are non-empty (every name built by the pipeline is a
non-empty canonical key), merging the results delivered in any completion
order — reassembled in index order, as `executor.map` yields them — equals
the spec's sequential crop-by-crop first-seen merge; the merge performed by
the source loop equals that sequential merge; and each canonical name
appears at most once in the output (an item is appended only the first time
its canonical name is seen). -/
theorem deep_merge_deterministic (results : List (List FoodItem))
    (arrivals : List (Nat × List FoodItem))
    (hnames : ∀ it ∈ results.flatten, it.name ≠ "")
    (hperm : arrivals.Perm results.enum) :
    deepMergeItems (collectInIndexOrder arrivals results.length)
        = seqProcessSpec results
    ∧ deepMergeItems results = seqProcessSpec results
    ∧ ((deepMergeItems results).map
        (fun it => normalize_food_name it.name)).Nodup := by
  have hn : ∀ it ∈ results.flatten, normalize_food_name it.name ≠ "" :=
    fun it hit => normalize_food_name_ne_empty it.name (hnames it hit)
  have hmain : deepMergeItems results = seqProcessSpec results := by
    rw [deepMergeItems, deepMerge_foldl_flatten,
      mergeCropList_eq_seqMergeSpec results.flatten hn [] [],
      seqProcessSpec, List.nil_append]
  refine ⟨?_, hmain, ?_⟩
  · rw [collectInIndexOrder_perm results arrivals hperm, hmain]
  · rw [hmain, seqProcessSpec]
    exact (seqMergeSpec_nodup_keys results.flatten []).1

/-- C2 witness: two crops with an overlapping canonical name, delivered in
reversed completion order, merge to the sequential first-seen result. -/
theorem deep_merge_deterministic_witness :
    (∀ it ∈ cropResultsEx.flatten, it.name ≠ "")
    ∧ deepMergeItems (collectInIndexOrder arrivalsEx cropResultsEx.length)
        = seqProcessSpec cropResultsEx :=
  ⟨by decide,
    (deep_merge_deterministic cropResultsEx arrivalsEx (by decide)
      (List.Perm.swap (0, [appleItem, plumItem]) (1, [appleItem]) [])).1⟩

/-! ## Verification: the canonicalizer -/

/-- Characters with equal codepoints are equal. -/
theorem char_toNat_inj {a b : Char} (h : a.toNat = b.toNat) : a = b := by
  rw [← Char.ofNat_toNat a, h, Char.ofNat_toNat]

/-- `Char` order is codepoint order. -/
theorem char_le_iff_toNat {a b : Char} : a ≤ b ↔ a.toNat ≤ b.toNat := by
  rw [Char.le_def, UInt32.le_def, BitVec.le_def]
  exact Iff.rfl

/-- `Char.ofNat` of a codepoint below the surrogate range round-trips. -/
theorem char_toNat_ofNat_valid {n : Nat} (h : n < 55296) :
    (Char.ofNat n).toNat = n := by
  rw [Char.ofNat, dif_pos (Or.inl h)]
  rfl

/-- A codepoint above 96 is none of the six ASCII whitespace characters. -/
theorem pyIsSpace_eq_false_of_toNat_gt (c : Char) (h : 96 < c.toNat) :
    pyIsSpace c = false := by
  have h1 : c ≠ ' ' := fun heq => by
    rw [heq] at h
    have hv : (' ').toNat = 32 := by decide
    omega
  have h2 : c ≠ '\t' := fun heq => by
    rw [heq] at h
    have hv : ('\t').toNat = 9 := by decide
    omega
  have h3 : c ≠ '\n' := fun heq => by
    rw [heq] at h
    have hv : ('\n').toNat = 10 := by decide
    omega
  have h4 : c ≠ '\r' := fun heq => by
    rw [heq] at h
    have hv : ('\r').toNat = 13 := by decide
    omega
  have h5 : c ≠ '\x0b' := fun heq => by
    rw [heq] at h
    have hv : ('\x0b').toNat = 11 := by decide
    omega
  have h6 : c ≠ '\x0c' := fun heq => by
    rw [heq] at h
    have hv : ('\x0c').toNat = 12 := by decide
    omega
  simp [pyIsSpace, h1, h2, h3, h4, h5, h6]

/-- Lowering an upper-case ASCII letter adds 32 to the codepoint. -/
theorem pyToLower_toNat_of_upper (c : Char) (h : 'A' ≤ c ∧ c ≤ 'Z') :
    (pyToLower c).toNat = c.toNat + 32 := by
  have h90 : c.toNat ≤ ('Z').toNat := char_le_iff_toNat.mp h.2
  have hZ : ('Z').toNat = 90 := by decide
  rw [pyToLower, if_pos h]
  exact char_toNat_ofNat_valid (by omega)

/-- ASCII lowering is idempotent. -/
theorem pyToLower_idem (c : Char) : pyToLower (pyToLower c) = pyToLower c := by
  by_cases h : 'A' ≤ c ∧ c ≤ 'Z'
  · have h65 : ('A').toNat ≤ c.toNat := char_le_iff_toNat.mp h.1
    have hA : ('A').toNat = 65 := by decide
    have hZ : ('Z').toNat = 90 := by decide
    have hv := pyToLower_toNat_of_upper c h
    have hup : ¬ ('A' ≤ pyToLower c ∧ pyToLower c ≤ 'Z') := by
      intro h2
      have h2v := char_le_iff_toNat.mp h2.2
      omega
    conv_lhs => rw [pyToLower]
    rw [if_neg hup]
  · have hid : pyToLower c = c := by rw [pyToLower, if_neg h]
    rw [hid, hid]

/-- Lowering never produces a space from a non-space. -/
theorem pyToLower_eq_space (c : Char) (h : pyToLower c = ' ') : c = ' ' := by
  by_cases hc : 'A' ≤ c ∧ c ≤ 'Z'
  · exfalso
    have h65 : ('A').toNat ≤ c.toNat := char_le_iff_toNat.mp hc.1
    have hA : ('A').toNat = 65 := by decide
    have hv := pyToLower_toNat_of_upper c hc
    rw [h] at hv
    have hsp : (' ').toNat = 32 := by decide
    omega
  · rwa [pyToLower, if_neg hc] at h

/-- Lowering never produces a hyphen from a non-hyphen. -/
theorem pyToLower_eq_hyphen (c : Char) (h : pyToLower c = '-') : c = '-' := by
  by_cases hc : 'A' ≤ c ∧ c ≤ 'Z'
  · exfalso
    have h65 : ('A').toNat ≤ c.toNat := char_le_iff_toNat.mp hc.1
    have hA : ('A').toNat = 65 := by decide
    have hv := pyToLower_toNat_of_upper c hc
    rw [h] at hv
    have hhy : ('-').toNat = 45 := by decide
    omega
  · rwa [pyToLower, if_neg hc] at h

/-- A list none of whose elements satisfy the predicate is untouched by
`dropWhile`. -/
theorem dropWhile_eq_self_of_all {p : Char → Bool} {l : List Char}
    (h : ∀ a ∈ l, p a = false) : l.dropWhile p = l := by
  cases l with
  | nil => rfl
  | cons a t =>
    rw [List.dropWhile_cons, h a (by simp)]
    simp

/-- A list all of whose elements satisfy the predicate is emptied by
`dropWhile`. -/
theorem dropWhile_eq_nil_of_all {p : Char → Bool} {l : List Char}
    (h : ∀ a ∈ l, p a = true) : l.dropWhile p = [] := by
  induction l with
  | nil => rfl
  | cons a t ih =>
    rw [List.dropWhile_cons, h a (by simp)]
    simp only [if_true]
    exact ih (fun a ha => h a (by simp [ha]))

/-- The head of a `dropWhile` result fails the predicate. -/
theorem head?_dropWhile_false {p : Char → Bool} {l : List Char} {a : Char}
    (h : (l.dropWhile p).head? = some a) : p a = false := by
  induction l with
  | nil => cases h
  | cons b t ih =>
    rw [List.dropWhile_cons] at h
    by_cases hb : p b = true
    · rw [if_pos hb] at h
      exact ih h
    · rw [if_neg hb] at h
      cases h
      exact Bool.eq_false_iff.mpr hb

/-- A non-empty `dropWhile` result keeps the original last element. -/
theorem getLast?_dropWhile {p : Char → Bool} {l : List Char}
    (h : l.dropWhile p ≠ []) : (l.dropWhile p).getLast? = l.getLast? := by
  induction l with
  | nil => rfl
  | cons b t ih =>
    rw [List.dropWhile_cons]
    rw [List.dropWhile_cons] at h
    by_cases hb : p b = true
    · rw [if_pos hb] at h ⊢
      have ht : t ≠ [] := by
        intro he
        rw [he] at h
        exact h rfl
      rcases List.exists_cons_of_ne_nil ht with ⟨x, xs, rfl⟩
      rw [ih h, List.getLast?_cons_cons]
    · rw [if_neg hb]

/-- `pyStrip` keeps only characters of the original list. -/
theorem mem_pyStrip {l : List Char} {a : Char} (h : a ∈ pyStrip l) : a ∈ l := by
  rw [pyStrip, List.mem_reverse] at h
  have h2 := (List.dropWhile_sublist pyIsSpace).mem h
  rw [List.mem_reverse] at h2
  exact (List.dropWhile_sublist pyIsSpace).mem h2

/-- A list with no whitespace is untouched by `pyStrip`. -/
theorem pyStrip_eq_self {l : List Char} (h : ∀ a ∈ l, pyIsSpace a = false) :
    pyStrip l = l := by
  rw [pyStrip, dropWhile_eq_self_of_all h,
    dropWhile_eq_self_of_all (fun a ha => h a (List.mem_reverse.mp ha)),
    List.reverse_reverse]

/-- An all-whitespace list is emptied by `pyStrip`. -/
theorem pyStrip_eq_nil_of_all {l : List Char} (h : ∀ a ∈ l, pyIsSpace a = true) :
    pyStrip l = [] := by
  rw [pyStrip, dropWhile_eq_nil_of_all h]
  rfl

/-- `collapseUnderscores` yields a sublist. -/
theorem collapseUnderscores_sublist (l : List Char) :
    List.Sublist (collapseUnderscores l) l := by
  induction l using collapseUnderscores.induct with
  | case1 => exact List.Sublist.refl _
  | case2 c => exact List.Sublist.refl _
  | case3 a b rest hab ih =>
    rw [collapseUnderscores, if_pos hab]
    exact ih.trans (List.sublist_cons_self a (b :: rest))
  | case4 a b rest hab ih =>
    rw [collapseUnderscores, if_neg hab]
    exact ih.cons₂ a

/-- `collapseUnderscores` preserves the head. -/
theorem collapseUnderscores_head? (l : List Char) (h : l ≠ []) :
    (collapseUnderscores l).head? = l.head? := by
  induction l using collapseUnderscores.induct with
  | case1 => exact absurd rfl h
  | case2 c => rfl
  | case3 a b rest hab ih =>
    rw [collapseUnderscores, if_pos hab, ih (by simp)]
    rw [hab.1, hab.2]
    rfl
  | case4 a b rest hab ih =>
    rw [collapseUnderscores, if_neg hab]
    rfl

/-- `collapseUnderscores` leaves no two adjacent underscores. -/
theorem chain'_collapseUnderscores (l : List Char) :
    List.Chain' (fun a b => ¬(a = '_' ∧ b = '_')) (collapseUnderscores l) := by
  induction l using collapseUnderscores.induct with
  | case1 => exact List.chain'_nil
  | case2 c => exact List.chain'_singleton c
  | case3 a b rest hab ih =>
    rw [collapseUnderscores, if_pos hab]
    exact ih
  | case4 a b rest hab ih =>
    rw [collapseUnderscores, if_neg hab]
    refine List.chain'_cons'.mpr ⟨?_, ih⟩
    intro y hy
    rw [collapseUnderscores_head? (b :: rest) (by simp)] at hy
    simp only [List.head?_cons, Option.mem_def, Option.some.injEq] at hy
    subst hy
    exact hab

/-- A list with no two adjacent underscores is untouched by
`collapseUnderscores`. -/
theorem collapseUnderscores_eq_self (l : List Char)
    (h : List.Chain' (fun a b => ¬(a = '_' ∧ b = '_')) l) :
    collapseUnderscores l = l := by
  induction l using collapseUnderscores.induct with
  | case1 => rfl
  | case2 c => rfl
  | case3 a b rest hab ih =>
    exact absurd hab (List.chain'_cons.mp h).1
  | case4 a b rest hab ih =>
    rw [collapseUnderscores, if_neg hab, ih (List.chain'_cons.mp h).2]

/-- `stripUnderscore` yields a sublist. -/
theorem stripUnderscore_sublist (l : List Char) :
    List.Sublist (stripUnderscore l) l := by
  rw [stripUnderscore]
  have h1 : List.Sublist
      ((l.dropWhile (· = '_')).reverse.dropWhile (· = '_'))
      (l.dropWhile (· = '_')).reverse := List.dropWhile_sublist _
  have h2 := h1.reverse
  rw [List.reverse_reverse] at h2
  exact h2.trans (List.dropWhile_sublist _)

/-- The head of a `stripUnderscore` result is not an underscore. -/
theorem stripUnderscore_head? (l : List Char) {a : Char}
    (h : (stripUnderscore l).head? = some a) : a ≠ '_' := by
  rw [stripUnderscore, List.head?_reverse] at h
  have hne : (l.dropWhile (· = '_')).reverse.dropWhile (· = '_') ≠ [] := by
    intro he
    rw [he] at h
    cases h
  rw [getLast?_dropWhile hne, List.getLast?_reverse] at h
  have := head?_dropWhile_false h
  simpa using this

/-- The last element of a `stripUnderscore` result is not an underscore. -/
theorem stripUnderscore_getLast? (l : List Char) {a : Char}
    (h : (stripUnderscore l).getLast? = some a) : a ≠ '_' := by
  rw [stripUnderscore, List.getLast?_reverse] at h
  have := head?_dropWhile_false h
  simpa using this

/-- `stripUnderscore` preserves the no-adjacent-underscores invariant. -/
theorem chain'_stripUnderscore (l : List Char)
    (h : List.Chain' (fun a b => ¬(a = '_' ∧ b = '_')) l) :
    List.Chain' (fun a b => ¬(a = '_' ∧ b = '_')) (stripUnderscore l) := by
  rw [stripUnderscore]
  have h1 : List.Chain' (fun a b => ¬(a = '_' ∧ b = '_')) (l.dropWhile (· = '_')) :=
    h.suffix (List.dropWhile_suffix _)
  have h2 : List.Chain' (fun a b => ¬(a = '_' ∧ b = '_'))
      (l.dropWhile (· = '_')).reverse := by
    rw [List.chain'_reverse]
    exact h1.imp (fun a b hab => fun hand => hab ⟨hand.2, hand.1⟩)
  have h3 := h2.suffix (List.dropWhile_suffix (fun c => c = '_'))
  rw [List.chain'_reverse]
  exact h3.imp (fun a b hab => fun hand => hab ⟨hand.2, hand.1⟩)

/-- A list whose head fails the predicate is untouched by `dropWhile`. -/
theorem dropWhile_eq_self_of_head {p : Char → Bool} {l : List Char}
    (h : ∀ a, l.head? = some a → p a = false) : l.dropWhile p = l := by
  cases l with
  | nil => rfl
  | cons b t =>
    rw [List.dropWhile_cons, h b rfl]
    simp

/-- A list that starts and ends with non-underscores is untouched by
`stripUnderscore`. -/
theorem stripUnderscore_eq_self (l : List Char)
    (hh : ∀ a, l.head? = some a → a ≠ '_')
    (hl : ∀ a, l.getLast? = some a → a ≠ '_') :
    stripUnderscore l = l := by
  rw [stripUnderscore,
    dropWhile_eq_self_of_head (fun a ha => decide_eq_false (hh a ha)),
    dropWhile_eq_self_of_head
      (fun a ha => decide_eq_false (hl a (by rwa [List.head?_reverse] at ha))),
    List.reverse_reverse]

/-- A string with an empty character list is the empty string. -/
theorem string_eq_empty_of_data {s : String} (h : s.data = []) : s = "" :=
  String.toList_inj.mp (by rw [show s.toList = s.data from rfl, h]; rfl)

/-- After lowering and replacing spaces and hyphens with underscores, a
character stemming from an input whose whitespace is only plain spaces is a
fixed point of lowering, is not whitespace, and is neither a space nor a
hyphen. -/
theorem goodChar_of_repl (c0 c : Char)
    (hc : c = (if (if pyToLower c0 = ' ' then '_' else pyToLower c0) = '-'
               then '_'
               else (if pyToLower c0 = ' ' then '_' else pyToLower c0)))
    (hws : pyIsSpace c0 = true → c0 = ' ') :
    pyToLower c = c ∧ pyIsSpace c = false ∧ c ≠ ' ' ∧ c ≠ '-' := by
  by_cases hsp : pyToLower c0 = ' '
  · rw [hsp] at hc
    have hc2 : c = '_' := by
      rw [hc]
      decide
    rw [hc2]
    decide
  · by_cases hhy : pyToLower c0 = '-'
    · rw [hhy] at hc
      have hc2 : c = '_' := by
        rw [hc]
        decide
      rw [hc2]
      decide
    · rw [if_neg hsp, if_neg hhy] at hc
      rw [hc]
      refine ⟨pyToLower_idem c0, ?_, hsp, hhy⟩
      by_cases hup : 'A' ≤ c0 ∧ c0 ≤ 'Z'
      · apply pyIsSpace_eq_false_of_toNat_gt
        have hv := pyToLower_toNat_of_upper c0 hup
        have hA : ('A').toNat = 65 := by decide
        have h65 := char_le_iff_toNat.mp hup.1
        omega
      · have hid : pyToLower c0 = c0 := by rw [pyToLower, if_neg hup]
        rw [hid]
        cases hpc : pyIsSpace c0
        · rfl
        · exfalso
          exact hsp (hid.trans (hws hpc))

/-- Every character of `normalizeChars l` (for an input whose whitespace is
only plain spaces) is a fixed point of lowering, not whitespace, not a
space, not a hyphen; and the output has no two adjacent underscores and
neither starts nor ends with an underscore. -/
theorem normalizeChars_props (l : List Char)
    (h : ∀ c ∈ l, pyIsSpace c = true → c = ' ') :
    (∀ c ∈ normalizeChars l,
        pyToLower c = c ∧ pyIsSpace c = false ∧ c ≠ ' ' ∧ c ≠ '-')
    ∧ List.Chain' (fun a b => ¬(a = '_' ∧ b = '_')) (normalizeChars l)
    ∧ (∀ a, (normalizeChars l).head? = some a → a ≠ '_')
    ∧ (∀ a, (normalizeChars l).getLast? = some a → a ≠ '_') := by
  refine ⟨?_, ?_, ?_, ?_⟩
  · intro c hc
    rw [normalizeChars] at hc
    have hc1 := (stripUnderscore_sublist _).mem hc
    have hc2 := (collapseUnderscores_sublist _).mem hc1
    rw [List.mem_map] at hc2
    obtain ⟨c1, hc1m, heq1⟩ := hc2
    rw [List.mem_map] at hc1m
    obtain ⟨c2, hc2m, heq2⟩ := hc1m
    rw [List.mem_map] at hc2m
    obtain ⟨c0, hc0m, heq3⟩ := hc2m
    have hc0l : c0 ∈ l := mem_pyStrip hc0m
    refine goodChar_of_repl c0 c ?_ (h c0 hc0l)
    rw [← heq1, ← heq2, ← heq3]
  · rw [normalizeChars]
    exact chain'_stripUnderscore _ (chain'_collapseUnderscores _)
  · intro a ha
    rw [normalizeChars] at ha
    exact stripUnderscore_head? _ ha
  · intro a ha
    rw [normalizeChars] at ha
    exact stripUnderscore_getLast? _ ha

/-- `normalizeChars` is the identity on its own (space-only-whitespace)
outputs. -/
theorem normalizeChars_eq_self (r : List Char)
    (hchars : ∀ c ∈ r, pyToLower c = c ∧ pyIsSpace c = false ∧ c ≠ ' ' ∧ c ≠ '-')
    (hchain : List.Chain' (fun a b => ¬(a = '_' ∧ b = '_')) r)
    (hhead : ∀ a, r.head? = some a → a ≠ '_')
    (hlast : ∀ a, r.getLast? = some a → a ≠ '_') :
    normalizeChars r = r := by
  have h1 : ∀ a ∈ r, pyToLower a = id a := fun a ha => (hchars a ha).1
  have h2 : ∀ a ∈ r, (if a = ' ' then '_' else a) = id a :=
    fun a ha => if_neg (hchars a ha).2.2.1
  have h3 : ∀ a ∈ r, (if a = '-' then '_' else a) = id a :=
    fun a ha => if_neg (hchars a ha).2.2.2
  rw [normalizeChars, pyStrip_eq_self (fun a ha => (hchars a ha).2.1),
    (List.map_congr_left h1).trans (List.map_id r),
    (List.map_congr_left h2).trans (List.map_id r),
    (List.map_congr_left h3).trans (List.map_id r),
    collapseUnderscores_eq_self r hchain]
  exact stripUnderscore_eq_self r hhead hlast

/-- C4 counterexample: the claim fails as stated.  The empty input returns
`""` (the falsy short-circuit), not the promised non-empty fallback
`"unknown"`; and canonicalization is not idempotent on inputs with
non-space whitespace: `"a\t_"` canonicalizes to `"a\t"`, which
canonicalizes further to `"a"`. -/
theorem canonicalize_counterexample :
    normalize_food_name "" = ""
    ∧ normalize_food_name (normalize_food_name "a\t_")
        ≠ normalize_food_name "a\t_" := by
  constructor
  · rfl
  · decide

/-- C4 (amended): for every input whose whitespace characters are all plain
spaces, canonicalization is idempotent; the output is non-empty for every
non-empty input; the empty input returns `""` (not `"unknown"`); and a
non-empty all-whitespace input yields `"unknown"`. -/
theorem canonicalize_idempotent_amended (text : String)
    (h : ∀ c ∈ text.data, pyIsSpace c = true → c = ' ') :
    normalize_food_name (normalize_food_name text) = normalize_food_name text
    ∧ (text ≠ "" → normalize_food_name text ≠ "")
    ∧ normalize_food_name "" = ""
    ∧ (text ≠ "" → (∀ c ∈ text.data, pyIsSpace c = true) →
        normalize_food_name text = "unknown") := by
  refine ⟨?_, normalize_food_name_ne_empty text, rfl, ?_⟩
  · by_cases hd : text.data = []
    · have htxt : normalize_food_name text = "" := by
        rw [normalize_food_name, if_pos hd]
      rw [htxt]
      rfl
    · have hprops := normalizeChars_props text.data h
      by_cases hr : normalizeChars text.data = []
      · have htxt : normalize_food_name text = "unknown" := by
          rw [normalize_food_name, if_neg hd]
          exact if_pos hr
        rw [htxt]
        decide
      · have htxt : normalize_food_name text
            = String.mk (normalizeChars text.data) := by
          rw [normalize_food_name, if_neg hd]
          exact if_neg hr
        rw [htxt]
        have hself : normalizeChars (String.mk (normalizeChars text.data)).data
            = normalizeChars text.data :=
          normalizeChars_eq_self _ hprops.1 hprops.2.1 hprops.2.2.1 hprops.2.2.2
        rw [normalize_food_name,
          if_neg (show ¬ ((String.mk (normalizeChars text.data)).data = [])
            from hr)]
        rw [hself]
        exact if_neg hr
  · intro hne hws
    have hd : text.data ≠ [] := fun he => hne (string_eq_empty_of_data he)
    have hstrip : pyStrip text.data = [] := pyStrip_eq_nil_of_all hws
    have hr : normalizeChars text.data = [] := by
      rw [normalizeChars, hstrip]
      rfl
    rw [normalize_food_name, if_neg hd]
    exact if_pos hr

/-- C4 witness: a benign input (spaces, hyphens, upper case) for the
amended idempotence and non-emptiness. -/
theorem canonicalize_idempotent_amended_witness :
    (∀ c ∈ ("Grilled  Chicken-Breast" : String).data,
        pyIsSpace c = true → c = ' ')
    ∧ normalize_food_name (normalize_food_name "Grilled  Chicken-Breast")
        = normalize_food_name "Grilled  Chicken-Breast"
    ∧ normalize_food_name "Grilled  Chicken-Breast" ≠ "" :=
  ⟨by decide,
   (canonicalize_idempotent_amended "Grilled  Chicken-Breast" (by decide)).1,
   (canonicalize_idempotent_amended "Grilled  Chicken-Breast" (by decide)).2.1
     (by decide)⟩

end FoodVision
